import Mathlib

/-!
Shallow embedding of `incremental_cmassman.py`: an exhaustive backtracking
k-SAT solver (class `IncrementalkSAT`) and a batch runner (`run_ksat_cases`).

Python exceptions are modelled with `Option`: `none` stands for a raised
exception (the `ValueError` that `max()` raises on an empty sequence of
literals, or an `IndexError` from list indexing).  The recursive `backtrack`
closure mutates a single assignment buffer; here the buffer is threaded
explicitly, and the recursion is driven by a fuel parameter (fuel exhaustion
is the outer `none` of `backtrackF`, distinct from the inner exception
`none`).
-/

abbrev Clause := List Int
abbrev ClauseSet := List Clause
abbrev Assignment := List (Option Bool)

/-- `IncrementalkSAT.get_num_vars`:
`max(abs(lit) for clause in self.clauses for lit in clause)`.
`none` models the `ValueError` Python's `max` raises when the clause set
holds no literal at all. -/
def get_num_vars (clauses : ClauseSet) : Option Nat :=
  match clauses.flatten with
  | [] => none
  | l :: ls => some (ls.foldl (fun acc x => max acc x.natAbs) l.natAbs)

/-- Python truthiness of one buffer entry: `None` and `False` are falsy. -/
def truthy (e : Option Bool) : Bool := e == some true

/-- One literal of the generator inside `is_satisfied`:
`(lit > 0 and assignment[lit - 1]) or (lit < 0 and not assignment[abs(lit) - 1])`.
`none` is an `IndexError` (index out of range). -/
def evalLit (a : Assignment) (lit : Int) : Option Bool :=
  if 0 < lit then
    match a.get? (lit.toNat - 1) with
    | none => none
    | some e => some (truthy e)
  else if lit < 0 then
    match a.get? (lit.natAbs - 1) with
    | none => none
    | some e => some (!truthy e)
  else
    some false

/-- `any(... for lit in clause)`, left to right, short-circuiting on the
first true literal; an exception raised before that propagates. -/
def evalClause (a : Assignment) : Clause → Option Bool
  | [] => some false
  | lit :: rest =>
    match evalLit a lit with
    | none => none
    | some true => some true
    | some false => evalClause a rest

/-- `IncrementalkSAT.is_satisfied`: every clause must have a true literal;
returns `False` at the first clause whose `any` is falsy. -/
def is_satisfied (a : Assignment) : ClauseSet → Option Bool
  | [] => some true
  | c :: rest =>
    match evalClause a c with
    | none => none
    | some false => some false
    | some true => is_satisfied a rest

/-- The nested `backtrack(index)` of `incremental_search`, with the mutable
`assignment` list threaded as explicit state.  Result layout:
outer `none` = out of fuel (models nontermination, never reached with fuel
`n - index + 1`); `some (none, a)` = a Python exception escaped with final
buffer `a`; `some (some b, a)` = `backtrack` returned boolean `b` leaving
buffer `a`. -/
def backtrackF (clauses : ClauseSet) (n : Nat) :
    Nat → Nat → Assignment → Option (Option Bool × Assignment)
  | 0, _, _ => none
  | fuel + 1, index, a =>
    if index = n then
      some (is_satisfied a clauses, a)
    else
      match backtrackF clauses n fuel (index + 1) (a.set index (some true)) with
      | none => none
      | some (none, a1) => some (none, a1)
      | some (some true, a1) => some (some true, a1)
      | some (some false, a1) =>
        match backtrackF clauses n fuel (index + 1) (a1.set index (some false)) with
        | none => none
        | some (none, a2) => some (none, a2)
        | some (some true, a2) => some (some true, a2)
        | some (some false, a2) => some (some false, a2.set index none)

/-- `IncrementalkSAT.__init__` followed by `incremental_search`:
`num_vars` is derived from the clauses (a `ValueError` there is `none`),
the buffer starts as `[None] * num_vars`, and `backtrack(0)` is run with
fuel `num_vars + 1`, enough for its call chain (proved below). -/
def incremental_search (clauses : ClauseSet) : Option Bool :=
  match get_num_vars clauses with
  | none => none
  | some n =>
    match backtrackF clauses n (n + 1) 0 (List.replicate n none) with
    | none => none
    | some (none, _) => none
    | some (some b, _) => some b

/-- `backtrack` again, instrumented to record, for every invocation it
makes (itself included), the pair (depth argument, buffer state at entry).
Its first component is proved equal to `backtrackF` below; only the trace
is new. -/
def backtrackT (clauses : ClauseSet) (n : Nat) :
    Nat → Nat → Assignment →
      Option (Option Bool × Assignment) × List (Nat × Assignment)
  | 0, index, a => (none, [(index, a)])
  | fuel + 1, index, a =>
    if index = n then
      (some (is_satisfied a clauses, a), [(index, a)])
    else
      let r1 := backtrackT clauses n fuel (index + 1) (a.set index (some true))
      match r1.1 with
      | none => (none, (index, a) :: r1.2)
      | some (none, a1) => (some (none, a1), (index, a) :: r1.2)
      | some (some true, a1) => (some (some true, a1), (index, a) :: r1.2)
      | some (some false, a1) =>
        let r2 := backtrackT clauses n fuel (index + 1) (a1.set index (some false))
        match r2.1 with
        | none => (none, (index, a) :: (r1.2 ++ r2.2))
        | some (none, a2) => (some (none, a2), (index, a) :: (r1.2 ++ r2.2))
        | some (some true, a2) => (some (some true, a2), (index, a) :: (r1.2 ++ r2.2))
        | some (some false, a2) =>
          (some (some false, a2.set index none), (index, a) :: (r1.2 ++ r2.2))

/-- Decidable leaf-level truth of one literal under a total assignment
`f` of the variables `1..f.length` (entry `i` of `f` is variable `i+1`). -/
def litB (f : List Bool) (lit : Int) : Bool :=
  if 0 < lit then f.getD (lit.toNat - 1) false
  else if lit < 0 then !(f.getD (lit.natAbs - 1) false)
  else false

/-- Satisfaction of a whole clause set by a total assignment, the
specification-side reading: every clause has at least one true literal,
a positive literal being true iff its variable is `true` and a negative
one iff its variable is `false`. -/
def specSat (f : List Bool) (clauses : ClauseSet) : Prop :=
  ∀ c ∈ clauses, ∃ lit ∈ c,
    (0 < lit ∧ f.getD (lit.toNat - 1) false = true) ∨
    (lit < 0 ∧ f.getD (lit.natAbs - 1) false = false)

/-- One parsed instance, as produced by the (out of scope) parser:
declared header counts, the clause list, and the expected label
(`satisfiability` is the raw CSV field, absent = `none`). -/
structure Problem where
  num_vars : Int
  num_clauses : Int
  clauses : ClauseSet
  satisfiability : Option String
  deriving DecidableEq

/-- One row written by `csv_writer.writerow([num_vars, num_clauses,
elapsed_time, solver_result, satisfiability])`. -/
structure ResultRow where
  vars : Int
  numClauses : Int
  time : ℚ
  solver : Bool
  expected : Option String
  deriving DecidableEq

/-- Outcome of `run_ksat_cases`.  `ok` is the normal return
`(sizes, times, answers)` together with the rows written to the output
file; `mismatch` is the `sys.exit` abort (the accumulated lists are lost,
the written rows survive in the file); `error` is an escaped Python
exception inside `time_solver` (the `ValueError` of `get_num_vars`). -/
inductive RunOutcome where
  | ok (sizes : List Int) (times : List ℚ) (answers : List Bool) (rows : List ResultRow)
  | mismatch (rows : List ResultRow)
  | error (rows : List ResultRow)
  deriving DecidableEq

/-- The mismatch test of line 135:
`(solver_result and satisfiability == 'U') or (not solver_result and satisfiability == 'S')`. -/
def mismB (res : Bool) (lbl : Option String) : Bool :=
  (res && lbl == some ("U")) || (!res && lbl == some ("S"))

/-- The loop body of `run_ksat_cases`, with wall-clock time abstracted as
an oracle `clock` of successive `time.time()` readings: the run of
instance `i` (0-based) reads the clock at calls `2*i` and `2*i+1`, so its
`elapsed_time` is `clock (2*i+1) - clock (2*i)`.  Accumulators carry the
rows written so far and the `sizes`, `times`, `answers` lists. -/
def runAux (clock : Nat → ℚ) :
    Nat → List ResultRow → List Int → List ℚ → List Bool →
      List Problem → RunOutcome
  | _, rows, sizes, times, answers, [] => .ok sizes times answers rows
  | i, rows, sizes, times, answers, p :: rest =>
    match incremental_search p.clauses with
    | none => .error rows
    | some res =>
      let elapsed := clock (2 * i + 1) - clock (2 * i)
      let row : ResultRow :=
        ⟨p.num_vars, p.num_clauses, elapsed, res, p.satisfiability⟩
      if mismB res p.satisfiability then
        .mismatch (rows ++ [row])
      else
        runAux clock (i + 1) (rows ++ [row]) (sizes ++ [p.num_vars])
          (times ++ [elapsed]) (answers ++ [res]) rest

/-- `run_ksat_cases` on an already-parsed instance list (parsing and file
output are out-of-scope collaborators). -/
def run_ksat_cases (clock : Nat → ℚ) (problems : List Problem) : RunOutcome :=
  runAux clock 0 [] [] [] [] problems

/-- The row instance `i` produces, written with the solver answer read off
from `incremental_search` (total via `getD`; equal to the real answer
whenever the search does not raise). -/
def rowOf (clock : Nat → ℚ) (i : Nat) (p : Problem) : ResultRow :=
  ⟨p.num_vars, p.num_clauses, clock (2 * i + 1) - clock (2 * i),
    (incremental_search p.clauses).getD false, p.satisfiability⟩

/-- The rows a consistent run writes for `ps`, starting at instance
index `i`. -/
def rowsFrom (clock : Nat → ℚ) : Nat → List Problem → List ResultRow
  | _, [] => []
  | i, p :: rest => rowOf clock i p :: rowsFrom clock (i + 1) rest

/-- The `times` list a consistent run accumulates for `ps`, starting at
instance index `i`. -/
def timesFrom (clock : Nat → ℚ) : Nat → List Problem → List ℚ
  | _, [] => []
  | i, _ :: rest => (clock (2 * i + 1) - clock (2 * i)) :: timesFrom clock (i + 1) rest

/-- The solver answer of one instance, defaulted (total); the buffer state
prefix used throughout the backtracking proofs. -/
def resD (p : Problem) : Bool := (incremental_search p.clauses).getD false

/-- The buffer whose first `p.length` entries are the booleans of `p` and
whose remaining `n - p.length` entries are unassigned: the state of the
working assignment at depth `p.length` of the search. -/
def buf (p : List Bool) (n : Nat) : Assignment :=
  p.map some ++ List.replicate (n - p.length) none

-- Sanity checks mirroring the testable properties of the design notes.
example : incremental_search [[1]] = some true := by decide
example : incremental_search [[1], [-1]] = some false := by decide
example : incremental_search [[1, 2], [-1, -2]] = some true := by decide
example : incremental_search [] = none := by decide
example : incremental_search [[]] = none := by decide
example : get_num_vars [[1, -3], [2]] = some 3 := by decide

/-! ### Basic facts about `get_num_vars` -/

lemma le_foldl_natAbs (ls : List Int) (a : Nat) :
    a ≤ ls.foldl (fun acc x => max acc x.natAbs) a := by
  induction ls generalizing a with
  | nil => exact le_refl a
  | cons x ls ih =>
    exact le_trans (le_max_left a x.natAbs) (ih (max a x.natAbs))

lemma mem_le_foldl_natAbs {x : Int} {ls : List Int} (a : Nat) (hx : x ∈ ls) :
    x.natAbs ≤ ls.foldl (fun acc x => max acc x.natAbs) a := by
  induction ls generalizing a with
  | nil => cases hx
  | cons y ls ih =>
    rcases List.mem_cons.mp hx with rfl | h
    · exact le_trans (le_max_right a x.natAbs) (le_foldl_natAbs ls _)
    · exact ih _ h

/-- Every literal's magnitude is bounded by the derived variable count. -/
lemma get_num_vars_bound {clauses : ClauseSet} {n : Nat}
    (h : get_num_vars clauses = some n) :
    ∀ c ∈ clauses, ∀ lit ∈ c, lit.natAbs ≤ n := by
  intro c hc lit hlit
  have hmem : lit ∈ clauses.flatten := List.mem_flatten.mpr ⟨c, hc, hlit⟩
  unfold get_num_vars at h
  rcases hfl : clauses.flatten with _ | ⟨l, ls⟩
  · rw [hfl] at h; cases h
  · rw [hfl] at h hmem
    have hn : ls.foldl (fun acc x => max acc x.natAbs) l.natAbs = n := by
      injection h
    rcases List.mem_cons.mp hmem with rfl | h'
    · exact hn ▸ le_foldl_natAbs ls lit.natAbs
    · exact hn ▸ mem_le_foldl_natAbs _ h'

/-- `get_num_vars` succeeds exactly when some clause holds a literal. -/
lemma get_num_vars_isSome_iff {clauses : ClauseSet} :
    (get_num_vars clauses).isSome = true ↔ clauses.flatten ≠ [] := by
  unfold get_num_vars
  rcases hfl : clauses.flatten with _ | ⟨l, ls⟩ <;> simp

/-! ### Evaluation on a fully assigned buffer -/

lemma truthy_some (b : Bool) : truthy (some b) = b := by
  cases b <;> rfl

lemma evalLit_full {f : List Bool} {n : Nat} {lit : Int}
    (hlen : f.length = n) (hmag : lit.natAbs ≤ n) :
    evalLit (f.map some) lit = some (litB f lit) := by
  unfold evalLit litB
  rcases lt_trichotomy lit 0 with hneg | hz | hpos
  · have h1 : ¬ (0 < lit) := by omega
    have hge : 1 ≤ lit.natAbs := by omega
    have hidx : lit.natAbs - 1 < f.length := by omega
    rw [if_neg h1, if_neg h1, if_pos hneg, if_pos hneg]
    rw [List.get?_eq_getElem?, List.getElem?_map, List.getElem?_eq_getElem hidx]
    simp [truthy_some, List.getD_eq_getElem?_getD, List.getElem?_eq_getElem hidx]
  · subst hz
    simp
  · have htn : lit.toNat = lit.natAbs := by omega
    have hge : 1 ≤ lit.natAbs := by omega
    have hidx : lit.toNat - 1 < f.length := by omega
    rw [if_pos hpos, if_pos hpos]
    rw [List.get?_eq_getElem?, List.getElem?_map, List.getElem?_eq_getElem hidx]
    simp [truthy_some, List.getD_eq_getElem?_getD, List.getElem?_eq_getElem hidx]

lemma evalClause_full {f : List Bool} {n : Nat} {c : Clause}
    (hlen : f.length = n) (hmag : ∀ lit ∈ c, lit.natAbs ≤ n) :
    evalClause (f.map some) c = some (c.any (litB f)) := by
  induction c with
  | nil => rfl
  | cons lit rest ih =>
    have h1 := evalLit_full hlen (hmag lit (List.mem_cons_self _ _))
    rw [evalClause, h1]
    rcases hb : litB f lit with _ | _
    · rw [ih (fun l hl => hmag l (List.mem_cons_of_mem _ hl))]
      simp [hb]
    · simp [hb]

lemma is_satisfied_full {f : List Bool} {n : Nat} {clauses : ClauseSet}
    (hlen : f.length = n) (hmag : ∀ c ∈ clauses, ∀ lit ∈ c, lit.natAbs ≤ n) :
    is_satisfied (f.map some) clauses
      = some (clauses.all (fun c => c.any (litB f))) := by
  induction clauses with
  | nil => rfl
  | cons c rest ih =>
    have h1 := evalClause_full (c := c) hlen (hmag c (List.mem_cons_self _ _))
    rw [is_satisfied, h1]
    rcases hb : c.any (litB f) with _ | _
    · simp [hb]
    · rw [ih (fun d hd => hmag d (List.mem_cons_of_mem _ hd))]
      simp [hb]

lemma litB_eq_true_iff (f : List Bool) (lit : Int) :
    litB f lit = true ↔
      (0 < lit ∧ f.getD (lit.toNat - 1) false = true) ∨
      (lit < 0 ∧ f.getD (lit.natAbs - 1) false = false) := by
  unfold litB
  rcases lt_trichotomy lit 0 with hneg | hz | hpos
  · have h1 : ¬ (0 < lit) := by omega
    rw [if_neg h1, if_pos hneg]
    constructor
    · intro h
      refine Or.inr ⟨hneg, ?_⟩
      cases hgd : f.getD (lit.natAbs - 1) false
      · rfl
      · rw [hgd] at h; cases h
    · rintro (⟨hp, _⟩ | ⟨_, h⟩)
      · omega
      · rw [h]; rfl
  · subst hz; simp
  · have h1 : ¬ (lit < 0) := by omega
    rw [if_pos hpos]
    constructor
    · intro h; exact Or.inl ⟨hpos, h⟩
    · rintro (⟨_, h⟩ | ⟨hn, _⟩)
      · exact h
      · omega

/-- The decidable leaf check agrees with the specification-side reading. -/
lemma all_any_iff_specSat (f : List Bool) (clauses : ClauseSet) :
    clauses.all (fun c => c.any (litB f)) = true ↔ specSat f clauses := by
  unfold specSat
  rw [List.all_eq_true]
  constructor
  · intro h c hc
    rcases List.any_eq_true.mp (h c hc) with ⟨lit, hlit, hB⟩
    exact ⟨lit, hlit, (litB_eq_true_iff f lit).mp hB⟩
  · intro h c hc
    rcases h c hc with ⟨lit, hlit, hspec⟩
    exact List.any_eq_true.mpr ⟨lit, hlit, (litB_eq_true_iff f lit).mpr hspec⟩

/-! ### Buffer prefix lemmas -/

lemma set_append_len {α : Type} (l₁ l₂ : List α) (x : α) :
    (l₁ ++ l₂).set l₁.length x = l₁ ++ l₂.set 0 x := by
  induction l₁ with
  | nil => rfl
  | cons a l ih => simp [ih]

lemma buf_length {p : List Bool} {n : Nat} (h : p.length ≤ n) :
    (buf p n).length = n := by
  simp [buf]; omega

lemma buf_full {p : List Bool} {n : Nat} (h : p.length = n) :
    buf p n = p.map some := by
  simp [buf, h]

lemma buf_snoc {p : List Bool} {n : Nat} (b : Bool) (_h : p.length < n) :
    buf (p ++ [b]) n
      = p.map some ++ (some b :: List.replicate (n - p.length - 1) none) := by
  unfold buf
  rw [List.map_append, List.append_assoc]
  have hl : (p ++ [b]).length = p.length + 1 := by simp
  rw [hl]
  have h2 : n - (p.length + 1) = n - p.length - 1 := by omega
  rw [h2]
  rfl

lemma replicate_set_zero (k : Nat) (x : Option Bool) :
    (List.replicate (k + 1) (none : Option Bool)).set 0 x
      = x :: List.replicate k none := by
  rw [List.replicate_succ]
  rfl

lemma buf_set_fresh {p : List Bool} {n : Nat} (b : Bool) (h : p.length < n) :
    (buf p n).set p.length (some b) = buf (p ++ [b]) n := by
  have h1 : (buf p n).set p.length (some b)
      = p.map some ++ (List.replicate (n - p.length) none).set 0 (some b) := by
    have h2 := set_append_len (p.map some)
      (List.replicate (n - p.length) none) (some b)
    rwa [List.length_map] at h2
  rw [h1, buf_snoc b h]
  congr 1
  obtain ⟨k, hk1, hk2⟩ :
      ∃ k, n - p.length = k + 1 ∧ k = n - p.length - 1 := ⟨_, by omega, rfl⟩
  rw [← hk2, hk1, replicate_set_zero]

lemma buf_set_swap {p : List Bool} {n : Nat} (b c : Bool) (h : p.length < n) :
    (buf (p ++ [b]) n).set p.length (some c) = buf (p ++ [c]) n := by
  rw [buf_snoc b h, buf_snoc c h]
  have h2 := set_append_len (p.map some)
    (some b :: List.replicate (n - p.length - 1) none) (some c)
  rw [List.length_map] at h2
  rw [h2]
  rfl

lemma buf_set_back {p : List Bool} {n : Nat} (b : Bool) (h : p.length < n) :
    (buf (p ++ [b]) n).set p.length none = buf p n := by
  rw [buf_snoc b h]
  have h2 := set_append_len (p.map some)
    (some b :: List.replicate (n - p.length - 1) none) none
  rw [List.length_map] at h2
  rw [h2]
  unfold buf
  congr 1
  obtain ⟨k, hk1, hk2⟩ :
      ∃ k, n - p.length = k + 1 ∧ k = n - p.length - 1 := ⟨_, by omega, rfl⟩
  rw [← hk2, hk1, List.replicate_succ]
  rfl

/-! ### The backtracking recursion, characterised -/

/-- One-step unfolding of `backtrackF` at the leaf (`index == num_vars`). -/
lemma backtrackF_base (clauses : ClauseSet) (n fuel : Nat) (a : Assignment) :
    backtrackF clauses n (fuel + 1) n a = some (is_satisfied a clauses, a) := by
  simp only [backtrackF]
  simp

/-- One-step unfolding of `backtrackF` at an inner node. -/
lemma backtrackF_succ (clauses : ClauseSet) (n fuel index : Nat)
    (a : Assignment) (h : index ≠ n) :
    backtrackF clauses n (fuel + 1) index a =
      match backtrackF clauses n fuel (index + 1) (a.set index (some true)) with
      | none => none
      | some (none, a1) => some (none, a1)
      | some (some true, a1) => some (some true, a1)
      | some (some false, a1) =>
        match backtrackF clauses n fuel (index + 1) (a1.set index (some false)) with
        | none => none
        | some (none, a2) => some (none, a2)
        | some (some true, a2) => some (some true, a2)
        | some (some false, a2) => some (some false, a2.set index none) := by
  conv_lhs => rw [backtrackF]
  rw [if_neg h]

/-- Main lemma: started at depth `p.length` on the buffer holding exactly
the prefix `p`, with fuel `k + 1` for the `k` missing variables,
`backtrack` raises nothing, needs no further fuel, answers `true` exactly
when the prefix extends to a satisfying total assignment, and on `false`
hands the buffer back exactly as received. -/
lemma backtrack_main {clauses : ClauseSet} {n : Nat}
    (hmag : ∀ c ∈ clauses, ∀ lit ∈ c, lit.natAbs ≤ n) :
    ∀ (k : Nat) (p : List Bool), p.length + k = n →
    ∃ (b : Bool) (a : Assignment),
      backtrackF clauses n (k + 1) p.length (buf p n) = some (some b, a) ∧
      (b = false → a = buf p n) ∧
      (b = true ↔ ∃ q : List Bool, q.length = k ∧
        clauses.all (fun c => c.any (litB (p ++ q))) = true) := by
  intro k
  induction k with
  | zero =>
    intro p hp
    have hpn : p.length = n := by omega
    have hfull : buf p n = p.map some := buf_full hpn
    have hsat := is_satisfied_full (f := p) (n := n) hpn hmag
    refine ⟨clauses.all (fun c => c.any (litB p)), p.map some, ?_, ?_, ?_⟩
    · simp only [backtrackF]
      rw [if_pos hpn, hfull, hsat]
    · intro _; exact hfull.symm
    · constructor
      · intro hb
        exact ⟨[], rfl, by simpa using hb⟩
      · rintro ⟨q, hq0, hq⟩
        have : q = [] := List.length_eq_zero.mp hq0
        subst this
        simpa using hq
  | succ k ih =>
    intro p hp
    have hlt : p.length < n := by omega
    have hne : p.length ≠ n := by omega
    obtain ⟨b1, a1, heq1, hres1, hiff1⟩ := ih (p ++ [true]) (by simp; omega)
    have hL1 : (p ++ [true]).length = p.length + 1 := by simp
    rw [hL1] at heq1
    cases b1 with
    | true =>
      refine ⟨true, a1, ?_, ?_, ?_⟩
      · rw [backtrackF_succ clauses n (k + 1) p.length (buf p n) hne,
          buf_set_fresh true hlt, heq1]
      · intro h; cases h
      · constructor
        · intro _
          obtain ⟨q', hq', hsq⟩ := hiff1.mp rfl
          refine ⟨true :: q', by simp [hq'], ?_⟩
          rw [List.append_cons]
          exact hsq
        · intro _; rfl
    | false =>
      have ha1 : a1 = buf (p ++ [true]) n := hres1 rfl
      subst ha1
      obtain ⟨b2, a2, heq2, hres2, hiff2⟩ := ih (p ++ [false]) (by simp; omega)
      have hL2 : (p ++ [false]).length = p.length + 1 := by simp
      rw [hL2] at heq2
      cases b2 with
      | true =>
        refine ⟨true, a2, ?_, ?_, ?_⟩
        · simp only [backtrackF_succ clauses n (k + 1) p.length (buf p n) hne,
            buf_set_fresh true hlt, heq1, buf_set_swap true false hlt, heq2]
        · intro h; cases h
        · constructor
          · intro _
            obtain ⟨q', hq', hsq⟩ := hiff2.mp rfl
            refine ⟨false :: q', by simp [hq'], ?_⟩
            rw [List.append_cons]
            exact hsq
          · intro _; rfl
      | false =>
        have ha2 : a2 = buf (p ++ [false]) n := hres2 rfl
        subst ha2
        refine ⟨false, buf p n, ?_, fun _ => rfl, ?_⟩
        · simp only [backtrackF_succ clauses n (k + 1) p.length (buf p n) hne,
            buf_set_fresh true hlt, heq1, buf_set_swap true false hlt, heq2,
            buf_set_back false hlt]
        · constructor
          · intro h; cases h
          · rintro ⟨q, hq, hsq⟩
            rcases q with _ | ⟨x, q'⟩
            · simp at hq
            · have hq' : q'.length = k := by simpa using hq
              cases x with
              | true =>
                have hcontra : false = true :=
                  hiff1.mpr ⟨q', hq', by rw [List.append_cons] at hsq; exact hsq⟩
                cases hcontra
              | false =>
                have hcontra : false = true :=
                  hiff2.mpr ⟨q', hq', by rw [List.append_cons] at hsq; exact hsq⟩
                cases hcontra

/-- `incremental_search` never raises once the constructor got a literal,
and its boolean answers exactly the existence of a satisfying total
assignment over variables `1..n`. -/
lemma incremental_search_spec {clauses : ClauseSet} {n : Nat}
    (h : get_num_vars clauses = some n) :
    ∃ b : Bool, incremental_search clauses = some b ∧
      (b = true ↔ ∃ f : List Bool, f.length = n ∧ specSat f clauses) := by
  have hmag := get_num_vars_bound h
  obtain ⟨b, a, heq, hres, hiff⟩ := backtrack_main hmag n [] (by simp)
  have hbuf : buf [] n = List.replicate n none := by simp [buf]
  rw [hbuf] at heq
  simp only [List.length_nil] at heq
  refine ⟨b, ?_, ?_⟩
  · unfold incremental_search
    simp only [h]
    rw [heq]
  · rw [hiff]
    constructor
    · rintro ⟨q, hq, hs⟩
      refine ⟨q, hq, ?_⟩
      rw [← all_any_iff_specSat]
      simpa using hs
    · rintro ⟨f, hf, hs⟩
      refine ⟨f, hf, ?_⟩
      simpa using (all_any_iff_specSat f clauses).mpr hs

/-! ### Fuel is irrelevant beyond `num_vars + 1` -/

lemma backtrackF_fuel_succ (clauses : ClauseSet) (n : Nat) :
    ∀ (fuel index : Nat) (a : Assignment) (r : Option Bool × Assignment),
      backtrackF clauses n fuel index a = some r →
      backtrackF clauses n (fuel + 1) index a = some r := by
  intro fuel
  induction fuel with
  | zero => intro index a r h; cases h
  | succ m ih =>
    intro index a r h
    by_cases hidx : index = n
    · subst hidx
      rw [backtrackF_base] at h
      rw [backtrackF_base]
      exact h
    · rw [backtrackF_succ clauses n m index a hidx] at h
      rw [backtrackF_succ clauses n (m + 1) index a hidx]
      rcases h1 : backtrackF clauses n m (index + 1) (a.set index (some true))
        with _ | ⟨ob1, a1⟩
      · rw [h1] at h; cases h
      · rw [h1] at h
        rw [ih _ _ _ h1]
        rcases ob1 with _ | b1
        · exact h
        · cases b1 with
          | false =>
            rcases h2 : backtrackF clauses n m (index + 1) (a1.set index (some false))
              with _ | ⟨ob2, a2⟩
            · simp only [h2] at h
              cases h
            · simp only [h2] at h
              simp only [ih _ _ _ h2]
              exact h
          | true => exact h

lemma backtrackF_fuel_mono {clauses : ClauseSet} {n fuel fuel' index : Nat}
    {a : Assignment} {r : Option Bool × Assignment}
    (h : backtrackF clauses n fuel index a = some r) (hle : fuel ≤ fuel') :
    backtrackF clauses n fuel' index a = some r := by
  induction hle with
  | refl => exact h
  | step _ ih => exact backtrackF_fuel_succ clauses n _ index a r ih

/-! ### The instrumented recursion agrees with the plain one -/

/-- One-step unfolding of `backtrackT` at the leaf. -/
lemma backtrackT_base (clauses : ClauseSet) (n fuel : Nat) (a : Assignment) :
    backtrackT clauses n (fuel + 1) n a
      = (some (is_satisfied a clauses, a), [(n, a)]) := by
  simp only [backtrackT]
  simp

/-- One-step unfolding of `backtrackT` at an inner node. -/
lemma backtrackT_succ (clauses : ClauseSet) (n fuel index : Nat)
    (a : Assignment) (h : index ≠ n) :
    backtrackT clauses n (fuel + 1) index a =
      match backtrackT clauses n fuel (index + 1) (a.set index (some true)) with
      | (none, t1) => (none, (index, a) :: t1)
      | (some (none, a1), t1) => (some (none, a1), (index, a) :: t1)
      | (some (some true, a1), t1) => (some (some true, a1), (index, a) :: t1)
      | (some (some false, a1), t1) =>
        match backtrackT clauses n fuel (index + 1) (a1.set index (some false)) with
        | (none, t2) => (none, (index, a) :: (t1 ++ t2))
        | (some (none, a2), t2) => (some (none, a2), (index, a) :: (t1 ++ t2))
        | (some (some true, a2), t2) => (some (some true, a2), (index, a) :: (t1 ++ t2))
        | (some (some false, a2), t2) =>
          (some (some false, a2.set index none), (index, a) :: (t1 ++ t2)) := by
  conv_lhs => rw [backtrackT]
  rw [if_neg h]
  rcases hX : backtrackT clauses n fuel (index + 1) (a.set index (some true))
    with ⟨or1, t1⟩
  rcases or1 with _ | ⟨ob1, a1⟩
  · rfl
  · rcases ob1 with _ | b1
    · rfl
    · cases b1 with
      | true => rfl
      | false =>
        dsimp only
        rcases hY : backtrackT clauses n fuel (index + 1) (a1.set index (some false))
          with ⟨or2, t2⟩
        rcases or2 with _ | ⟨ob2, a2⟩
        · rfl
        · rcases ob2 with _ | b2
          · rfl
          · cases b2 <;> rfl

/-- The instrumented recursion computes exactly the plain recursion's
result, alongside some trace. -/
lemma backtrackT_pair (clauses : ClauseSet) (n : Nat) :
    ∀ (fuel index : Nat) (a : Assignment), ∃ t : List (Nat × Assignment),
      backtrackT clauses n fuel index a = (backtrackF clauses n fuel index a, t) := by
  intro fuel
  induction fuel with
  | zero => intro index a; exact ⟨[(index, a)], rfl⟩
  | succ m ih =>
    intro index a
    by_cases hidx : index = n
    · subst hidx
      exact ⟨[(index, a)], by rw [backtrackT_base, backtrackF_base]⟩
    · obtain ⟨t1, h1⟩ := ih (index + 1) (a.set index (some true))
      rw [backtrackT_succ clauses n m index a hidx,
        backtrackF_succ clauses n m index a hidx, h1]
      rcases hr1 : backtrackF clauses n m (index + 1) (a.set index (some true))
        with _ | ⟨ob1, a1⟩
      · exact ⟨(index, a) :: t1, rfl⟩
      · rcases ob1 with _ | b1
        · exact ⟨(index, a) :: t1, rfl⟩
        · cases b1 with
          | true => exact ⟨(index, a) :: t1, rfl⟩
          | false =>
            obtain ⟨t2, h2⟩ := ih (index + 1) (a1.set index (some false))
            simp only [h2]
            rcases hr2 : backtrackF clauses n m (index + 1) (a1.set index (some false))
              with _ | ⟨ob2, a2⟩
            · exact ⟨(index, a) :: (t1 ++ t2), rfl⟩
            · rcases ob2 with _ | b2
              · exact ⟨(index, a) :: (t1 ++ t2), rfl⟩
              · cases b2 with
                | true => exact ⟨(index, a) :: (t1 ++ t2), rfl⟩
                | false => exact ⟨(index, a) :: (t1 ++ t2), rfl⟩

/-- Every invocation the search makes — recorded as (depth, buffer at
entry) — sees a buffer that is exactly an assigned prefix of length equal
to the depth, followed by unassigned entries. -/
lemma backtrackT_trace {clauses : ClauseSet} {n : Nat}
    (hmag : ∀ c ∈ clauses, ∀ lit ∈ c, lit.natAbs ≤ n) :
    ∀ (k : Nat) (p : List Bool), p.length + k = n →
    ∀ e ∈ (backtrackT clauses n (k + 1) p.length (buf p n)).2,
      ∃ q : List Bool, e.1 = q.length ∧ e.2 = buf q n := by
  intro k
  induction k with
  | zero =>
    intro p hp e he
    have hpn : p.length = n := by omega
    rw [hpn, backtrackT_base] at he
    simp only [List.mem_singleton] at he
    subst he
    exact ⟨p, hpn.symm, rfl⟩
  | succ k ih =>
    intro p hp e he
    have hlt : p.length < n := by omega
    have hne : p.length ≠ n := by omega
    rw [backtrackT_succ clauses n (k + 1) p.length (buf p n) hne,
      buf_set_fresh true hlt] at he
    obtain ⟨t1, hT1⟩ := backtrackT_pair clauses n (k + 1) (p.length + 1)
      (buf (p ++ [true]) n)
    obtain ⟨b1, a1, heq1, hres1, _⟩ := backtrack_main hmag k (p ++ [true])
      (by simp; omega)
    have hL1 : (p ++ [true]).length = p.length + 1 := by simp
    rw [hL1] at heq1
    rw [hT1, heq1] at he
    have ht1mem : ∀ e' ∈ t1, ∃ q : List Bool, e'.1 = q.length ∧ e'.2 = buf q n := by
      intro e' he'
      refine ih (p ++ [true]) (by simp; omega) e' ?_
      rw [hL1, hT1]
      exact he'
    cases b1 with
    | true =>
      simp only [List.mem_cons] at he
      rcases he with rfl | he
      · exact ⟨p, rfl, rfl⟩
      · exact ht1mem e he
    | false =>
      have ha1 : a1 = buf (p ++ [true]) n := hres1 rfl
      subst ha1
      obtain ⟨t2, hT2⟩ := backtrackT_pair clauses n (k + 1) (p.length + 1)
        (buf (p ++ [false]) n)
      obtain ⟨b2, a2, heq2, hres2, _⟩ := backtrack_main hmag k (p ++ [false])
        (by simp; omega)
      have hL2 : (p ++ [false]).length = p.length + 1 := by simp
      rw [hL2] at heq2
      have ht2mem : ∀ e' ∈ t2, ∃ q : List Bool, e'.1 = q.length ∧ e'.2 = buf q n := by
        intro e' he'
        refine ih (p ++ [false]) (by simp; omega) e' ?_
        rw [hL2, hT2]
        exact he'
      cases b2 with
      | true =>
        simp only [buf_set_swap true false hlt, hT2, heq2, List.mem_cons,
          List.mem_append] at he
        rcases he with rfl | he | he
        · exact ⟨p, rfl, rfl⟩
        · exact ht1mem e he
        · exact ht2mem e he
      | false =>
        simp only [buf_set_swap true false hlt, hT2, heq2, List.mem_cons,
          List.mem_append] at he
        rcases he with rfl | he | he
        · exact ⟨p, rfl, rfl⟩
        · exact ht1mem e he
        · exact ht2mem e he

/-! ### Runner characterisation -/

/-- A run over instances that all succeed and never trip the mismatch test
returns normally, with the accumulators extended in input order. -/
lemma runAux_ok {clock : Nat → ℚ} :
    ∀ (ps : List Problem) (i : Nat) (rows : List ResultRow) (sizes : List Int)
      (times : List ℚ) (answers : List Bool),
      (∀ p ∈ ps, ∃ res, incremental_search p.clauses = some res ∧
        mismB res p.satisfiability = false) →
      runAux clock i rows sizes times answers ps =
        .ok (sizes ++ ps.map (fun p => p.num_vars))
            (times ++ timesFrom clock i ps)
            (answers ++ ps.map resD)
            (rows ++ rowsFrom clock i ps) := by
  intro ps
  induction ps with
  | nil =>
    intro i rows sizes times answers _
    simp [runAux, timesFrom, rowsFrom]
  | cons p rest ih =>
    intro i rows sizes times answers hok
    obtain ⟨res, hres, hmis⟩ := hok p (List.mem_cons_self _ _)
    have hmis' : ¬ (mismB res p.satisfiability = true) := by rw [hmis]; simp
    simp only [runAux, hres]
    rw [if_neg hmis']
    rw [ih (i + 1) _ _ _ _ (fun q hq => hok q (List.mem_cons_of_mem _ hq))]
    simp [rowsFrom, timesFrom, rowOf, resD, hres, List.append_assoc]

/-- A run whose first mismatch is at instance `pk` (all of `pre` succeed
and pass the check, `pk` succeeds and trips it) aborts right after writing
`pk`'s row: the file holds exactly one row per instance of `pre ++ [pk]`. -/
lemma runAux_mismatch {clock : Nat → ℚ} :
    ∀ (pre : List Problem) (pk : Problem) (post : List Problem) (i : Nat)
      (rows : List ResultRow) (sizes : List Int) (times : List ℚ)
      (answers : List Bool),
      (∀ p ∈ pre, ∃ res, incremental_search p.clauses = some res ∧
        mismB res p.satisfiability = false) →
      (∃ res, incremental_search pk.clauses = some res ∧
        mismB res pk.satisfiability = true) →
      runAux clock i rows sizes times answers (pre ++ pk :: post) =
        .mismatch (rows ++ rowsFrom clock i (pre ++ [pk])) := by
  intro pre
  induction pre with
  | nil =>
    intro pk post i rows sizes times answers _ hk
    obtain ⟨res, hres, hmis⟩ := hk
    simp only [List.nil_append, runAux, hres]
    rw [if_pos hmis]
    simp [rowsFrom, rowOf, hres]
  | cons p pre' ih =>
    intro pk post i rows sizes times answers hpre hk
    obtain ⟨res, hres, hmis⟩ := hpre p (List.mem_cons_self _ _)
    have hmis' : ¬ (mismB res p.satisfiability = true) := by rw [hmis]; simp
    simp only [List.cons_append, runAux, hres]
    rw [if_neg hmis']
    simp only [List.append_eq]
    rw [ih pk post (i + 1) _ _ _ _
      (fun q hq => hpre q (List.mem_cons_of_mem _ hq)) hk]
    simp [rowsFrom, rowOf, hres, List.append_assoc]

/-- A run aborts by mismatch exactly when some instance's solver answer
trips the mismatch test (assuming every instance's search succeeds). -/
lemma runAux_mismatch_iff {clock : Nat → ℚ} :
    ∀ (ps : List Problem) (i : Nat) (rows : List ResultRow) (sizes : List Int)
      (times : List ℚ) (answers : List Bool),
      (∀ p ∈ ps, (incremental_search p.clauses).isSome) →
      ((∃ rows', runAux clock i rows sizes times answers ps = .mismatch rows') ↔
        ∃ p ∈ ps, ∃ res, incremental_search p.clauses = some res ∧
          mismB res p.satisfiability = true) := by
  intro ps
  induction ps with
  | nil =>
    intro i rows sizes times answers _
    simp [runAux]
  | cons p rest ih =>
    intro i rows sizes times answers hok
    obtain ⟨res, hres⟩ := Option.isSome_iff_exists.mp (hok p (List.mem_cons_self _ _))
    simp only [runAux, hres]
    by_cases hmis : mismB res p.satisfiability = true
    · rw [if_pos hmis]
      constructor
      · intro _
        exact ⟨p, List.mem_cons_self _ _, res, hres, hmis⟩
      · intro _
        exact ⟨_, rfl⟩
    · rw [if_neg hmis]
      rw [ih (i + 1) _ _ _ _ (fun q hq => hok q (List.mem_cons_of_mem _ hq))]
      constructor
      · rintro ⟨q, hq, res', hres', hmis'⟩
        exact ⟨q, List.mem_cons_of_mem _ hq, res', hres', hmis'⟩
      · rintro ⟨q, hq, res', hres', hmis'⟩
        rcases List.mem_cons.mp hq with rfl | hq'
        · rw [hres] at hres'
          injection hres' with h'
          subst h'
          exact absurd hmis' hmis
        · exact ⟨q, hq', res', hres', hmis'⟩

lemma rowsFrom_length (clock : Nat → ℚ) :
    ∀ (ps : List Problem) (i : Nat), (rowsFrom clock i ps).length = ps.length := by
  intro ps
  induction ps with
  | nil => intro i; rfl
  | cons p rest ih => intro i; simp [rowsFrom, ih (i + 1)]

lemma timesFrom_length (clock : Nat → ℚ) :
    ∀ (ps : List Problem) (i : Nat), (timesFrom clock i ps).length = ps.length := by
  intro ps
  induction ps with
  | nil => intro i; rfl
  | cons p rest ih => intro i; simp [timesFrom, ih (i + 1)]

lemma rowsFrom_vars (clock : Nat → ℚ) :
    ∀ (ps : List Problem) (i : Nat),
      (rowsFrom clock i ps).map (fun r => r.vars) = ps.map (fun p => p.num_vars) := by
  intro ps
  induction ps with
  | nil => intro i; rfl
  | cons p rest ih => intro i; simp [rowsFrom, rowOf, ih (i + 1)]

lemma timesFrom_nonneg (clock : Nat → ℚ)
    (hc : ∀ j : Nat, clock (2 * j) ≤ clock (2 * j + 1)) :
    ∀ (ps : List Problem) (i : Nat), ∀ t ∈ timesFrom clock i ps, 0 ≤ t := by
  intro ps
  induction ps with
  | nil => intro i t ht; simp [timesFrom] at ht
  | cons p rest ih =>
    intro i t ht
    simp only [timesFrom, List.mem_cons] at ht
    rcases ht with rfl | ht
    · have := hc i
      linarith
    · exact ih (i + 1) t ht

/-! ### Claim theorems -/

/-- Claim C1, counterexample: an instance declaring 5 header variables
whose single clause only mentions variable 1.  The Runner stores the
declared 5 in the sizes sequence and in the Result Record, while the
engine-derived count is 1 — so the recorded count is NOT the
engine-derived one. -/
theorem C1_cex :
    run_ksat_cases (fun _ => 0) [⟨5, 1, [[1]], none⟩]
      = .ok [5] [(0 : ℚ) - 0] [true] [⟨5, 1, (0 : ℚ) - 0, true, none⟩] ∧
    get_num_vars [[1]] = some 1 ∧ (5 : Int) ≠ 1 :=
  ⟨by rfl, by decide, by decide⟩

/-- Claim C1 (corrected): the variable count the Runner records — in the
sizes sequence and in every Result Record — is the instance's DECLARED
header count `num_vars`, taken verbatim from the parsed header,
independent of the engine-derived count. -/
theorem C1_declared_count_recorded (clock : Nat → ℚ) (problems : List Problem)
    (hok : ∀ p ∈ problems, ∃ res, incremental_search p.clauses = some res ∧
      mismB res p.satisfiability = false) :
    run_ksat_cases clock problems
      = .ok (problems.map (fun p => p.num_vars)) (timesFrom clock 0 problems)
          (problems.map resD) (rowsFrom clock 0 problems) ∧
    (rowsFrom clock 0 problems).map (fun r => r.vars)
      = problems.map (fun p => p.num_vars) := by
  constructor
  · have h := @runAux_ok clock problems 0 [] [] [] [] hok
    unfold run_ksat_cases
    simpa using h
  · exact rowsFrom_vars clock problems 0

/-- Witness for C1's corrected theorem at a concrete instance. -/
theorem C1_witness :
    run_ksat_cases (fun _ => 0) ([⟨5, 1, [[1]], none⟩] : List Problem)
      = .ok (([⟨5, 1, [[1]], none⟩] : List Problem).map (fun p => p.num_vars))
          (timesFrom (fun _ => 0) 0 [⟨5, 1, [[1]], none⟩])
          (([⟨5, 1, [[1]], none⟩] : List Problem).map resD)
          (rowsFrom (fun _ => 0) 0 [⟨5, 1, [[1]], none⟩]) ∧
    (rowsFrom (fun _ => 0) 0 ([⟨5, 1, [[1]], none⟩] : List Problem)).map (fun r => r.vars)
      = ([⟨5, 1, [[1]], none⟩] : List Problem).map (fun p => p.num_vars) :=
  C1_declared_count_recorded (fun _ => 0) [⟨5, 1, [[1]], none⟩] (by decide)

/-- Claim C2, counterexample: on a clause set with zero clauses the
engine constructor raises (`max()` of an empty sequence), so the search
neither runs nor returns `true`. -/
theorem C2_cex :
    get_num_vars ([] : ClauseSet) = none ∧
    incremental_search ([] : ClauseSet) = none ∧
    incremental_search ([] : ClauseSet) ≠ some true := by
  refine ⟨by decide, by decide, by decide⟩

/-- Claim C2 (corrected): for every clause set with no literals at all
(zero clauses included), constructing the engine fails —
`get_num_vars` raises `ValueError` — and `search()` is never reached. -/
theorem C2_no_literals_raises (clauses : ClauseSet) (h : clauses.flatten = []) :
    get_num_vars clauses = none ∧ incremental_search clauses = none := by
  have h1 : get_num_vars clauses = none := by
    unfold get_num_vars
    rw [h]
  refine ⟨h1, ?_⟩
  unfold incremental_search
  rw [h1]

/-- Witness for C2's corrected theorem: two empty clauses, no literal. -/
theorem C2_witness :
    get_num_vars ([[], []] : ClauseSet) = none ∧
    incremental_search ([[], []] : ClauseSet) = none :=
  C2_no_literals_raises [[], []] rfl

/-- Claim C3 (confirmed): for a clause set with at least one literal
(`get_num_vars` succeeds with the maximum literal magnitude `n`),
`search()` returns `true` exactly when some total assignment of the
variables `1..n` makes every clause contain a true literal. -/
theorem C3_search_iff_exists (clauses : ClauseSet) (n : Nat)
    (h : get_num_vars clauses = some n) :
    incremental_search clauses = some true ↔
      ∃ f : List Bool, f.length = n ∧ specSat f clauses := by
  obtain ⟨b, hb, hiff⟩ := incremental_search_spec h
  rw [hb]
  constructor
  · intro he
    have hb' : b = true := by injection he
    exact hiff.mp hb'
  · intro hex
    rw [hiff.mpr hex]

/-- Witness for C3 at the two-clause instance from the design notes. -/
theorem C3_witness :
    incremental_search [[1, 2], [-1, -2]] = some true ↔
      ∃ f : List Bool, f.length = 2 ∧ specSat f [[1, 2], [-1, -2]] :=
  C3_search_iff_exists [[1, 2], [-1, -2]] 2 (by decide)

/-- Claim C4 (confirmed): provided every instance's search returns a
boolean, the Runner aborts (by `sys.exit`) exactly when some instance's
solver result trips the mismatch test — solver `True` against label `U`,
or solver `False` against label `S`.  Any other label (`none` = absent,
or any other string) never aborts, as `mismB` then computes `false`. -/
theorem C4_abort_iff_contradiction (clock : Nat → ℚ) (problems : List Problem)
    (hok : ∀ p ∈ problems, (incremental_search p.clauses).isSome) :
    (∃ rows, run_ksat_cases clock problems = .mismatch rows) ↔
      ∃ p ∈ problems, ∃ res, incremental_search p.clauses = some res ∧
        mismB res p.satisfiability = true := by
  unfold run_ksat_cases
  exact @runAux_mismatch_iff clock problems 0 [] [] [] [] hok

/-- Witness for C4: one satisfiable instance labelled `U` aborts the run. -/
theorem C4_witness :
    (∃ rows, run_ksat_cases (fun _ => 0) [⟨1, 1, [[1]], some ("U")⟩]
        = .mismatch rows) ↔
      ∃ p ∈ ([⟨1, 1, [[1]], some ("U")⟩] : List Problem), ∃ res,
        incremental_search p.clauses = some res ∧
        mismB res p.satisfiability = true :=
  C4_abort_iff_contradiction (fun _ => 0) [⟨1, 1, [[1]], some ("U")⟩] (by decide)

/-- Claim C5 (confirmed): when the instances before `pk` all solve
cleanly and pass the check while `pk`'s result trips it, the run emits
one Result Record per instance of `pre ++ [pk]` — `pk`'s included — in
input order, then aborts; nothing after `pk` is processed or recorded. -/
theorem C5_abort_after_first_mismatch (clock : Nat → ℚ) (pre : List Problem)
    (pk : Problem) (post : List Problem)
    (hpre : ∀ p ∈ pre, ∃ res, incremental_search p.clauses = some res ∧
      mismB res p.satisfiability = false)
    (hk : ∃ res, incremental_search pk.clauses = some res ∧
      mismB res pk.satisfiability = true) :
    run_ksat_cases clock (pre ++ pk :: post)
      = .mismatch (rowsFrom clock 0 (pre ++ [pk])) ∧
    (rowsFrom clock 0 (pre ++ [pk])).length = pre.length + 1 := by
  constructor
  · have h := @runAux_mismatch clock pre pk post 0 [] [] [] [] hpre hk
    unfold run_ksat_cases
    simpa using h
  · rw [rowsFrom_length]
    simp

/-- Witness for C5: one consistent instance, then a mismatching one,
then a further instance that is never reached. -/
theorem C5_witness :
    run_ksat_cases (fun _ => 0)
        ([⟨1, 1, [[1]], none⟩] ++ ⟨1, 1, [[1]], some ("U")⟩ ::
          [⟨1, 1, [[-1]], none⟩])
      = .mismatch (rowsFrom (fun _ => 0) 0
          ([⟨1, 1, [[1]], none⟩] ++ [⟨1, 1, [[1]], some ("U")⟩])) ∧
    (rowsFrom (fun _ => 0) 0
        ([(⟨1, 1, [[1]], none⟩ : Problem)] ++ [⟨1, 1, [[1]], some ("U")⟩])).length
      = ([(⟨1, 1, [[1]], none⟩ : Problem)]).length + 1 :=
  C5_abort_after_first_mismatch (fun _ => 0) [⟨1, 1, [[1]], none⟩]
    ⟨1, 1, [[1]], some ("U")⟩ [⟨1, 1, [[-1]], none⟩] (by decide) (by decide)

/-- Claim C6, counterexample: the clause set holding exactly one empty
clause has no literal, so the constructor raises and `search()` does not
return `false` (it does not return at all). -/
theorem C6_cex :
    incremental_search [[]] = none ∧ incremental_search [[]] ≠ some false := by
  refine ⟨by decide, by decide⟩

/-- Claim C6 (corrected): a clause set that contains an empty clause and
at least one literal somewhere makes `search()` return `false` — the
empty clause defeats every assignment.  (Without any literal the
constructor raises instead, see the counterexample.) -/
theorem C6_empty_clause_unsat (clauses : ClauseSet) (n : Nat)
    (h : get_num_vars clauses = some n) (hmem : [] ∈ clauses) :
    incremental_search clauses = some false := by
  obtain ⟨b, hb, hiff⟩ := incremental_search_spec h
  cases b with
  | false => exact hb
  | true =>
    exfalso
    obtain ⟨f, _, hsat⟩ := hiff.mp rfl
    obtain ⟨lit, hlit, _⟩ := hsat [] hmem
    exact absurd hlit (List.not_mem_nil lit)

/-- Witness for C6's corrected theorem. -/
theorem C6_witness : incremental_search [[1], []] = some false :=
  C6_empty_clause_unsat [[1], []] 1 (by decide) (by decide)

/-- Claim C7, counterexample: a single well-formed instance whose clause
set is one empty clause.  No mismatch is possible (its label is absent
and the solver never produces a result), yet the Runner raises instead of
returning sequences of length 1: the outcome is an error with zero rows,
not an `ok` outcome. -/
theorem C7_cex :
    run_ksat_cases (fun _ => 0) [⟨3, 1, [[]], none⟩] = .error [] ∧
    incremental_search [[]] = none := by
  refine ⟨by rfl, by decide⟩

/-- Claim C7 (corrected): if additionally every instance holds at least
one literal (so each search returns a boolean) and the wall clock never
runs backwards across a timed call, a mismatch-free run returns the
three parallel sequences, each as long as the input and in input order,
with every elapsed time nonnegative. -/
theorem C7_ok_run_shape (clock : Nat → ℚ) (problems : List Problem)
    (hok : ∀ p ∈ problems, ∃ res, incremental_search p.clauses = some res ∧
      mismB res p.satisfiability = false)
    (hclock : ∀ j : Nat, clock (2 * j) ≤ clock (2 * j + 1)) :
    run_ksat_cases clock problems
      = .ok (problems.map (fun p => p.num_vars)) (timesFrom clock 0 problems)
          (problems.map resD) (rowsFrom clock 0 problems) ∧
    (problems.map (fun p => p.num_vars)).length = problems.length ∧
    (timesFrom clock 0 problems).length = problems.length ∧
    (problems.map resD).length = problems.length ∧
    ∀ t ∈ timesFrom clock 0 problems, 0 ≤ t := by
  refine ⟨?_, by simp, timesFrom_length clock problems 0, by simp,
    timesFrom_nonneg clock hclock problems 0⟩
  have h := @runAux_ok clock problems 0 [] [] [] [] hok
  unfold run_ksat_cases
  simpa using h

/-- Witness for C7's corrected theorem on a two-instance batch. -/
theorem C7_witness :
    run_ksat_cases (fun _ => 0)
        ([⟨2, 1, [[1, -2]], none⟩, ⟨1, 2, [[1], [-1]], some ("U")⟩] : List Problem)
      = .ok (([⟨2, 1, [[1, -2]], none⟩, ⟨1, 2, [[1], [-1]], some ("U")⟩] : List Problem).map
            (fun p => p.num_vars))
          (timesFrom (fun _ => 0) 0 [⟨2, 1, [[1, -2]], none⟩, ⟨1, 2, [[1], [-1]], some ("U")⟩])
          (([⟨2, 1, [[1, -2]], none⟩, ⟨1, 2, [[1], [-1]], some ("U")⟩] : List Problem).map resD)
          (rowsFrom (fun _ => 0) 0 [⟨2, 1, [[1, -2]], none⟩, ⟨1, 2, [[1], [-1]], some ("U")⟩]) ∧
    (([⟨2, 1, [[1, -2]], none⟩, ⟨1, 2, [[1], [-1]], some ("U")⟩] : List Problem).map
        (fun p => p.num_vars)).length
      = ([⟨2, 1, [[1, -2]], none⟩, ⟨1, 2, [[1], [-1]], some ("U")⟩] : List Problem).length ∧
    (timesFrom (fun _ => 0) 0
        ([⟨2, 1, [[1, -2]], none⟩, ⟨1, 2, [[1], [-1]], some ("U")⟩] : List Problem)).length
      = ([⟨2, 1, [[1, -2]], none⟩, ⟨1, 2, [[1], [-1]], some ("U")⟩] : List Problem).length ∧
    (([⟨2, 1, [[1, -2]], none⟩, ⟨1, 2, [[1], [-1]], some ("U")⟩] : List Problem).map resD).length
      = ([⟨2, 1, [[1, -2]], none⟩, ⟨1, 2, [[1], [-1]], some ("U")⟩] : List Problem).length ∧
    ∀ t ∈ timesFrom (fun _ => 0) 0
        ([⟨2, 1, [[1, -2]], none⟩, ⟨1, 2, [[1], [-1]], some ("U")⟩] : List Problem), 0 ≤ t :=
  C7_ok_run_shape (fun _ => 0)
    [⟨2, 1, [[1, -2]], none⟩, ⟨1, 2, [[1], [-1]], some ("U")⟩]
    (by decide) (fun j => le_refl 0)

/-- Claim C8 (confirmed): (1) every invocation of `backtrack` during the
search — recorded by the instrumented `backtrackT` as (depth, buffer at
entry) — sees a buffer that is an assigned prefix of exactly the first
`depth` entries followed by `none`s; (2) a call that answers `false`
hands the buffer back exactly as it received it, i.e. it reset its own
entry to unassigned before returning. -/
theorem C8_prefix_invariant (clauses : ClauseSet) (n : Nat)
    (h : get_num_vars clauses = some n) :
    (∀ e ∈ (backtrackT clauses n (n + 1) 0 (List.replicate n none)).2,
      ∃ q : List Bool, e.1 = q.length ∧
        e.2 = q.map some ++ List.replicate (n - q.length) none) ∧
    (∀ (k : Nat) (p : List Bool) (a : Assignment), p.length + k = n →
      backtrackF clauses n (k + 1) p.length (buf p n) = some (some false, a) →
      a = buf p n) := by
  have hmag := get_num_vars_bound h
  constructor
  · intro e he
    obtain ⟨q, h1, h2⟩ := backtrackT_trace hmag n [] (by simp) e he
    exact ⟨q, h1, h2⟩
  · intro k p a hpk heq
    obtain ⟨b, a', heq', hres', _⟩ := backtrack_main hmag k p hpk
    rw [heq'] at heq
    injection heq with hpair
    injection hpair with h1 h2
    have hb : b = false := by injection h1
    subst hb
    rw [← h2]
    exact hres' rfl

/-- Witness for C8 at the one-variable instance. -/
theorem C8_witness :
    (∀ e ∈ (backtrackT [[1]] 1 (1 + 1) 0 (List.replicate 1 none)).2,
      ∃ q : List Bool, e.1 = q.length ∧
        e.2 = q.map some ++ List.replicate (1 - q.length) none) ∧
    (∀ (k : Nat) (p : List Bool) (a : Assignment), p.length + k = 1 →
      backtrackF [[1]] 1 (k + 1) p.length (buf p 1) = some (some false, a) →
      a = buf p 1) :=
  C8_prefix_invariant [[1]] 1 (by decide)

/-- Claim C9 (confirmed): with at least one literal, every buffer index
the leaf-level satisfaction check computes (`|lit| - 1`, for both
polarities) is within the `n`-entry buffer, and on a full buffer the
entry read is assigned (a `some`); consequently the whole search never
propagates an exception — the error outcome is unreachable. -/
theorem C9_leaf_access_ok (clauses : ClauseSet) (n : Nat)
    (h : get_num_vars clauses = some n) :
    (∀ f : List Bool, f.length = n → ∀ c ∈ clauses, ∀ lit ∈ c, lit ≠ 0 →
      lit.natAbs - 1 < (f.map some).length ∧
      (f.map some).get? (lit.natAbs - 1)
        = some (some (f.getD (lit.natAbs - 1) false))) ∧
    incremental_search clauses ≠ none := by
  constructor
  · intro f hf c hc lit hlit hlit0
    have hb := get_num_vars_bound h c hc lit hlit
    have hge : 0 < lit.natAbs := Int.natAbs_pos.mpr hlit0
    have hidx : lit.natAbs - 1 < f.length := by omega
    constructor
    · simpa using hidx
    · rw [List.get?_eq_getElem?, List.getElem?_map, List.getElem?_eq_getElem hidx]
      simp [List.getD_eq_getElem?_getD, List.getElem?_eq_getElem hidx]
  · obtain ⟨b, hb, _⟩ := incremental_search_spec h
    rw [hb]
    simp

/-- Witness for C9 at the one-variable instance. -/
theorem C9_witness :
    (∀ f : List Bool, f.length = 1 → ∀ c ∈ ([[1]] : ClauseSet), ∀ lit ∈ c,
      lit ≠ 0 →
      lit.natAbs - 1 < (f.map some).length ∧
      (f.map some).get? (lit.natAbs - 1)
        = some (some (f.getD (lit.natAbs - 1) false))) ∧
    incremental_search [[1]] ≠ none :=
  C9_leaf_access_ok [[1]] 1 (by decide)

/-- Claim C10 (confirmed): with at least one literal the recursion
terminates within a call chain of depth `num_vars + 1` — running
`backtrack` with that much fuel completes (no fuel exhaustion), and any
larger fuel budget computes the very same result, so the depth-indexed
recursion is stationary from `num_vars + 1` on. -/
theorem C10_terminates (clauses : ClauseSet) (n : Nat)
    (h : get_num_vars clauses = some n) :
    ∃ r : Option Bool × Assignment,
      backtrackF clauses n (n + 1) 0 (List.replicate n none) = some r ∧
      ∀ fuel : Nat, n + 1 ≤ fuel →
        backtrackF clauses n fuel 0 (List.replicate n none) = some r := by
  have hmag := get_num_vars_bound h
  obtain ⟨b, a, heq, _, _⟩ := backtrack_main hmag n [] (by simp)
  refine ⟨(some b, a), heq, ?_⟩
  intro fuel hfuel
  exact backtrackF_fuel_mono heq hfuel

/-- Witness for C10 at the one-variable instance, with surplus fuel. -/
theorem C10_witness :
    backtrackF [[1]] 1 (1 + 1) 0 (List.replicate 1 none)
      = some (some true, [some true]) ∧
    backtrackF [[1]] 1 5 0 (List.replicate 1 none)
      = some (some true, [some true]) := by
  obtain ⟨r, h1, h2⟩ := C10_terminates [[1]] 1 (by decide)
  have hc : backtrackF [[1]] 1 (1 + 1) 0 (List.replicate 1 none)
      = some (some true, [some true]) := by decide
  have hr : r = (some true, [some true]) := by
    have h3 := h1.symm.trans hc
    injection h3
  exact ⟨hc, by rw [h2 5 (by omega), hr]⟩
